/-
Verification of `COMPS/scrape_clickcompetitions_all.py` against its
natural-language specification.

The Python source is shallowly embedded: pure functions become Lean
functions; Python `float` money values are modelled as `ℚ`, Python `int`
as `ℤ`, Python strings as `List Char`, `Optional[T]` as `Option T`, and
code that can raise as `Except Unit`.  The regular-expression searches of
the field extractors are abstracted as optional capture results (a
`PageMatches` value); everything downstream of the captures is translated
statement by statement from the source.
-/
import Mathlib

namespace ClickComps

/-! ### Data model (`Competition` dataclass, src lines 41-51) -/

structure Competition where
  category : List Char
  url : List Char
  title : Option (List Char) := none
  ticket_price_gbp : Option ℚ := none
  draw_datetime : Option (List Char) := none
  sales_end_datetime : Option (List Char) := none
  tickets_available : Option ℤ := none
  tickets_sold : Option ℤ := none
  cash_alternative_gbp : Option ℚ := none
deriving DecidableEq, Repr

/-! ### Calculations (src lines 239-267) -/

/-- Python `int(q)` on a real value: truncation toward zero. -/
def pyInt (q : ℚ) : ℤ := if q < 0 then ⌈q⌉ else ⌊q⌋

/-- `odds_per_ticket` (src lines 239-242): `1 / tickets_available` when the
field is truthy (`comp.tickets_available`) and positive, else `None`. -/
def odds_per_ticket (comp : Competition) : Option ℚ :=
  match comp.tickets_available with
  | some n => if n ≠ 0 ∧ n > 0 then some (1 / (n : ℚ)) else none
  | none => none

/-- `win_probability_for_spend` (src lines 244-262).  The first guard is
Python's truthiness test `not (comp.ticket_price_gbp and
comp.tickets_available)` (`None` or zero is falsy); the second is the
explicit `<= 0` guard; `int(spend_gbp / price)` truncates toward zero. -/
def win_probability_for_spend (comp : Competition) (spend_gbp : ℚ) : Option ℚ :=
  match comp.ticket_price_gbp, comp.tickets_available with
  | some price, some avail =>
      if ¬(price ≠ 0 ∧ avail ≠ 0) then none
      else if price ≤ 0 ∨ avail ≤ 0 then none
      else
        let n : ℤ := pyInt (spend_gbp / price)
        if n ≤ 0 then some 0
        else some ((min n avail : ℤ) / (avail : ℚ))
  | _, _ => none

/-- `company_revenue_gbp` (src lines 264-267): `None` exactly when
`ticket_price_gbp is None or tickets_available is None`. -/
def company_revenue_gbp (comp : Competition) : Option ℚ :=
  match comp.ticket_price_gbp, comp.tickets_available with
  | some price, some avail => some (price * (avail : ℚ))
  | _, _ => none

/-! ### Field extraction (src lines 129-232)

The seven regular-expression searches of `extract_comp_details_static`
are abstracted as the optional capture results they produce on the page
text; assignment logic downstream of the captures is translated
statement by statement. -/

/-- The optional results of the seven pattern rules on one page's text:
`m_title` is the normalized text of the first `h1` when present and
non-empty (rule 1); `m_price` the numeric capture of
`£<number> PER ENTRY` (rule 2); `m_avail` the integer capture of
`<int> tickets available` (rule 3); `m_sold` the two integer captures of
`Tickets Sold: <int> of <int>` (rule 4); `m_cash` the capture of
`Cash Alternative: £<decimal>` (rule 5); `m_draw` and `m_end` the
rest-of-line captures of `Live Draw` / `Ticket sales end` (rules 6-7). -/
structure PageMatches where
  m_title : Option (List Char) := none
  m_price : Option ℚ := none
  m_avail : Option ℕ := none
  m_sold : Option (ℕ × ℕ) := none
  m_cash : Option ℚ := none
  m_draw : Option (List Char) := none
  m_end : Option (List Char) := none
deriving DecidableEq, Repr

/-- `extract_comp_details_static` (src lines 129-171): start from a record
holding only category and url, then apply the seven rules in order.  Rule
4 sets `tickets_sold` from the first capture and writes the second (pool)
capture to `tickets_available` only when that field is still `None`
(src lines 151-154). -/
def extract_comp_details_static (category url : List Char) (m : PageMatches) :
    Competition :=
  let c0 : Competition := { category := category, url := url }
  let c1 := match m.m_title with
    | some t => { c0 with title := some t }
    | none => c0
  let c2 := match m.m_price with
    | some p => { c1 with ticket_price_gbp := some p }
    | none => c1
  let c3 := match m.m_avail with
    | some a => { c2 with tickets_available := some (a : ℤ) }
    | none => c2
  let c4 := match m.m_sold with
    | some sp =>
        let c := { c3 with tickets_sold := some (sp.1 : ℤ) }
        if c.tickets_available = none then
          { c with tickets_available := some (sp.2 : ℤ) }
        else c
    | none => c3
  let c5 := match m.m_cash with
    | some q => { c4 with cash_alternative_gbp := some q }
    | none => c4
  let c6 := match m.m_draw with
    | some d => { c5 with draw_datetime := some d }
    | none => c5
  match m.m_end with
  | some e => { c6 with sales_end_datetime := some e }
  | none => c6

/-- `is_comp_complete` (src lines 173-178): title, price, and at least one
of pool / sold are present. -/
def is_comp_complete (comp : Competition) : Bool :=
  comp.title.isSome && comp.ticket_price_gbp.isSome &&
    (comp.tickets_available.isSome || comp.tickets_sold.isSome)

/-- `extract_comp_details_playwright` (src lines 185-232): the alternate
extractor runs the identical rule set against the rendered page text
(its captures again abstracted as a `PageMatches`); the browser driving
itself is outside the embedding. -/
def extract_comp_details_playwright (category url : List Char) (m : PageMatches) :
    Competition :=
  let c0 : Competition := { category := category, url := url }
  let c1 := match m.m_title with
    | some t => { c0 with title := some t }
    | none => c0
  let c2 := match m.m_price with
    | some p => { c1 with ticket_price_gbp := some p }
    | none => c1
  let c3 := match m.m_avail with
    | some a => { c2 with tickets_available := some (a : ℤ) }
    | none => c2
  let c4 := match m.m_sold with
    | some sp =>
        let c := { c3 with tickets_sold := some (sp.1 : ℤ) }
        if c.tickets_available = none then
          { c with tickets_available := some (sp.2 : ℤ) }
        else c
    | none => c3
  let c5 := match m.m_cash with
    | some q => { c4 with cash_alternative_gbp := some q }
    | none => c4
  let c6 := match m.m_draw with
    | some d => { c5 with draw_datetime := some d }
    | none => c5
  match m.m_end with
  | some e => { c6 with sales_end_datetime := some e }
  | none => c6

/-! ### Per-URL orchestration (src lines 686-701)

In `main`, one `try` block wraps the fetch, the static extraction, and
the Playwright fallback; the `except` branch appends
`Competition(category=cat_name, url=url)`.  Fetching and the Playwright
call are modelled as `Except Unit` inputs: `.error` is a raised
exception at that point. -/

/-- The record appended by the `except` branch (src line 699): only
category and url are set. -/
def failure_record (category url : List Char) : Competition :=
  { category := category, url := url }

/-- The body of the per-URL loop in `main` (src lines 688-699): fetch the
page, run the static extractor, and when `--use-playwright` is on and the
static record is incomplete run the fallback extractor; any exception
(from the fetch or from the fallback) lands in the `except` branch, which
keeps `Competition(category, url)`. -/
def fetch_and_extract (use_playwright : Bool) (category url : List Char)
    (fetched : Except Unit PageMatches) (pw : Except Unit PageMatches) :
    Competition :=
  match fetched with
  | .error _ => failure_record category url
  | .ok m =>
      let comp := extract_comp_details_static category url m
      if use_playwright && !is_comp_complete comp then
        match pw with
        | .ok m2 => extract_comp_details_playwright category url m2
        | .error _ => failure_record category url
      else comp

/-- The per-category loop over detail URLs (src lines 686-701): every URL
contributes exactly one record to `comps`; no failure aborts the
iteration. -/
def process_detail_urls (use_playwright : Bool) (category : List Char)
    (items : List (List Char × Except Unit PageMatches × Except Unit PageMatches)) :
    List Competition :=
  items.map fun it => fetch_and_extract use_playwright category it.1 it.2.1 it.2.2

/-- The win-probability function exactly as the specification words it
(claim C4): require `ticket_price_gbp > 0` and `tickets_available > 0`,
let `n = floor(spend / price)`, return `0.0` when `n <= 0`, else
`min n avail / avail`; unknown when price or pool is missing or
non-positive.  Written from the spec, to be compared with
`win_probability_for_spend`. -/
def win_probability_spec (comp : Competition) (spend_gbp : ℚ) : Option ℚ :=
  match comp.ticket_price_gbp, comp.tickets_available with
  | some price, some avail =>
      if 0 < price ∧ 0 < avail then
        let n : ℤ := ⌊spend_gbp / price⌋
        if n ≤ 0 then some 0
        else some ((min n avail : ℤ) / (avail : ℚ))
      else none
  | _, _ => none

/-! ### Output (src lines 269-365)

A rendered cell/field value: Python `None`, a string, a float (`ℚ`),
or an int (`ℤ`). -/

inductive PyVal where
  | none
  | str (s : List Char)
  | num (q : ℚ)
  | int (n : ℤ)
deriving DecidableEq, Repr

def optStr : Option (List Char) → PyVal
  | some s => .str s
  | Option.none => .none

def optNum : Option ℚ → PyVal
  | some q => .num q
  | Option.none => .none

def optInt : Option ℤ → PyVal
  | some n => .int n
  | Option.none => .none

/-- `OUTPUT_FIELDS` (src lines 287-301). -/
def OUTPUT_FIELDS : List String :=
  ["category", "url", "title", "ticket_price_gbp", "draw_datetime",
   "sales_end_datetime", "tickets_available", "tickets_sold",
   "cash_alternative_gbp", "odds_per_ticket", "win_prob_for_10gbp",
   "win_prob_for_20gbp", "company_revenue_gbp"]

/-- The shared row-shaping step of `write_csv` and `write_json`
(src lines 309-313 and 320-324): `asdict(c)` in dataclass field order,
then the four derived metrics appended in source order.  This ordered
association list is the dict both writers build. -/
def augment (c : Competition) : List (String × PyVal) :=
  [("category", .str c.category),
   ("url", .str c.url),
   ("title", optStr c.title),
   ("ticket_price_gbp", optNum c.ticket_price_gbp),
   ("draw_datetime", optStr c.draw_datetime),
   ("sales_end_datetime", optStr c.sales_end_datetime),
   ("tickets_available", optInt c.tickets_available),
   ("tickets_sold", optInt c.tickets_sold),
   ("cash_alternative_gbp", optNum c.cash_alternative_gbp),
   ("odds_per_ticket", optNum (odds_per_ticket c)),
   ("win_prob_for_10gbp", optNum (win_probability_for_spend c 10)),
   ("win_prob_for_20gbp", optNum (win_probability_for_spend c 20)),
   ("company_revenue_gbp", optNum (company_revenue_gbp c))]

/-- One row written by `write_csv` (src lines 303-314): `csv.DictWriter`
with `fieldnames=OUTPUT_FIELDS` emits, for each field name in
`OUTPUT_FIELDS` order, the value the row dict holds under that name. -/
def write_csv_row (c : Competition) : List PyVal :=
  OUTPUT_FIELDS.map fun f => (((augment c).lookup f).getD .none)

/-- One object of the array written by `write_json` (src lines 316-326):
the row dict itself, in insertion order. -/
def write_json_row (c : Competition) : List (String × PyVal) :=
  augment c

/-- `safe_title` (src lines 279-280): `comp.title or comp.url` — Python
`or` falls through on `None` and on the empty string. -/
def safe_title (comp : Competition) : List Char :=
  match comp.title with
  | some t => if t = [] then comp.url else t
  | none => comp.url

/-- The data cells of one `<tr>` produced by `row_html` (src lines
341-363), in cell order, each tagged with the record/metric field it
renders.  The second cell holds both the link target (`c.url`) and the
link text (`safe_title c`); HTML markup and the `fmt_money` / `fmt_pct`
formatting are abstracted to the underlying values. -/
def row_html (c : Competition) : List (String × PyVal) :=
  [("category", .str c.category),
   ("url", .str c.url),
   ("title", .str (safe_title c)),
   ("ticket_price_gbp", optNum c.ticket_price_gbp),
   ("tickets_available", optInt c.tickets_available),
   ("tickets_sold", optInt c.tickets_sold),
   ("win_prob_for_10gbp", optNum (win_probability_for_spend c 10)),
   ("win_prob_for_20gbp", optNum (win_probability_for_spend c 20)),
   ("company_revenue_gbp", optNum (company_revenue_gbp c)),
   ("sales_end_datetime", optStr c.sales_end_datetime)]

/-- The field names rendered by `row_html`, in cell order. -/
def ROW_HTML_FIELDS : List String :=
  ["category", "url", "title", "ticket_price_gbp", "tickets_available",
   "tickets_sold", "win_prob_for_10gbp", "win_prob_for_20gbp",
   "company_revenue_gbp", "sales_end_datetime"]

/-! ### The interactive-report sort (src lines 331-338) -/

/-- `sort_key` (src lines 332-336): the pair
`(-(win_probability_for_spend(c, 10.0) or 0.0), rev_val)` where a `None`
revenue becomes `float("inf")` (modelled as `⊤` in `WithTop ℚ`). -/
def sort_key (c : Competition) : ℚ × WithTop ℚ :=
  (-((win_probability_for_spend c 10).getD 0),
   match company_revenue_gbp c with
   | some r => (r : WithTop ℚ)
   | none => ⊤)

/-- The (non-strict) lexicographic order Python uses on `sort_key` pairs. -/
def pairLe (x y : ℚ × WithTop ℚ) : Prop :=
  x.1 < y.1 ∨ (x.1 = y.1 ∧ x.2 ≤ y.2)

instance : DecidableRel pairLe := fun x y => by
  unfold pairLe; infer_instance

/-- The row order of `write_html`: one record ranks no later than another
when its sort key is lexicographically no greater. -/
def reportLe (a b : Competition) : Prop := pairLe (sort_key a) (sort_key b)

instance : DecidableRel reportLe := fun a b => by
  unfold reportLe; infer_instance

/-- `sorted_comps` (src line 338): the records in the order the
interactive report renders them. -/
def write_html_sorted (comps : List Competition) : List Competition :=
  comps.insertionSort reportLe


/-! ### Link extraction (src lines 84-122)

URLs and hrefs are `List Char`.  `urljoin` / `urlparse` from
`urllib.parse` are external library calls; they are modelled below for
the URL shapes this scraper handles. -/


/-- Python `sub in s` substring test. -/
def pyIn (sub s : List Char) : Bool := decide (sub <:+: s)

def isSchemeChar (c : Char) : Bool :=
  c.isAlpha || c.isDigit || c == '+' || c == '-' || c == '.'

def isNetChar (c : Char) : Bool := !(c == '/' || c == '?' || c == '#')

/-- Does `u` start with a valid `scheme:` (letter then scheme chars, a
colon following)? -/
def hasScheme (u : List Char) : Bool :=
  match u.takeWhile (· != ':'), u.dropWhile (· != ':') with
  | c :: cs, _ :: _ => c.isAlpha && cs.all isSchemeChar
  | _, _ => false

/-- The substring after the `scheme:` part (the whole of `u` when no
scheme is present). -/
def afterScheme (u : List Char) : List Char :=
  if hasScheme u then (u.dropWhile (· != ':')).tail else u

/-- Model of `urlparse(u).netloc`: the text between `scheme://` and the
next `/`, `?` or `#`. -/
def netloc (u : List Char) : List Char :=
  match afterScheme u with
  | a :: b :: rest => if a = '/' ∧ b = '/' then rest.takeWhile isNetChar else []
  | _ => []

/-- The canonicalization at src line 119:
`full.split("#")[0].split("?")[0].rstrip("/") + "/"`. -/
def canonical_url (full : List Char) : List Char :=
  ((full.takeWhile (· != '#')).takeWhile (· != '?')).rdropWhile (· == '/') ++ ['/']

/-! helper lemmas -/

theorem takeWhile_append_all {α : Type} {p : α → Bool} {a b : List α}
    (h : ∀ x ∈ a, p x = true) :
    (a ++ b).takeWhile p = a ++ b.takeWhile p := by
  have h2 : a.takeWhile p = a := List.takeWhile_eq_self_iff.mpr h
  rw [List.takeWhile_append, h2, if_pos rfl]

theorem rdropWhile_append_ne {α : Type} {p : α → Bool} {a b : List α}
    (h : b.rdropWhile p ≠ []) :
    (a ++ b).rdropWhile p = a ++ b.rdropWhile p := by
  unfold List.rdropWhile at *
  rw [List.reverse_append, List.dropWhile_append]
  rw [if_neg]
  · rw [List.reverse_append, List.reverse_reverse]
  · intro hc
    rw [List.isEmpty_iff] at hc
    rw [hc] at h
    simp at h

theorem rdropWhile_append_nil {α : Type} {p : α → Bool} {a b : List α}
    (h : b.rdropWhile p = []) :
    (a ++ b).rdropWhile p = a.rdropWhile p := by
  unfold List.rdropWhile at *
  rw [List.reverse_append, List.dropWhile_append, if_pos]
  rw [List.isEmpty_iff]
  rw [List.reverse_eq_nil_iff] at h
  exact h


theorem isNetChar_facts {x : Char} (h : isNetChar x = true) :
    (x != '#') = true ∧ (x != '?') = true ∧ (x == '/') = false := by
  by_cases h1 : x = '/'
  · subst h1; simp [isNetChar] at h
  by_cases h2 : x = '?'
  · subst h2; simp [isNetChar] at h
  by_cases h3 : x = '#'
  · subst h3; simp [isNetChar] at h
  exact ⟨bne_iff_ne.mpr h3, bne_iff_ne.mpr h2, beq_eq_false_iff_ne.mpr h1⟩

theorem rdropWhile_all_not {α : Type} {p : α → Bool} {l : List α}
    (h : ∀ x ∈ l, p x = false) : l.rdropWhile p = l := by
  rw [List.rdropWhile_eq_self_iff]
  intro hl hcon
  exact absurd (h _ (List.getLast_mem hl)) (by simp [hcon])

theorem canonical_shape {s H Z : List Char}
    (hs : ∀ x ∈ s, (x != '#') = true ∧ (x != '?') = true)
    (hH : ∀ x ∈ H, isNetChar x = true) (hHne : H ≠ [])
    (hZ : Z = [] ∨ ∃ z0 zs, Z = z0 :: zs ∧ isNetChar z0 = false) :
    ∃ Y, canonical_url (s ++ '/' :: '/' :: (H ++ Z)) =
      s ++ '/' :: '/' :: (H ++ '/' :: Y) := by
  have hA : ∀ x ∈ s ++ '/' :: '/' :: H,
      (x != '#') = true ∧ (x != '?') = true := by
    intro x hx
    rw [List.mem_append, List.mem_cons, List.mem_cons] at hx
    rcases hx with hx | hx | hx | hx
    · exact hs x hx
    · subst hx; exact ⟨by decide, by decide⟩
    · subst hx; exact ⟨by decide, by decide⟩
    · exact ⟨(isNetChar_facts (hH x hx)).1, (isNetChar_facts (hH x hx)).2.1⟩
  have hu : s ++ '/' :: '/' :: (H ++ Z) = (s ++ '/' :: '/' :: H) ++ Z := by
    simp
  have hAne : s ++ '/' :: '/' :: H = (s ++ ['/', '/']) ++ H := by simp
  have hrdA : (s ++ '/' :: '/' :: H).rdropWhile (· == '/') = s ++ '/' :: '/' :: H := by
    rw [hAne]
    rw [rdropWhile_append_ne]
    · rw [rdropWhile_all_not (fun x hx => (isNetChar_facts (hH x hx)).2.2)]
    · rw [rdropWhile_all_not (fun x hx => (isNetChar_facts (hH x hx)).2.2)]
      exact hHne
  have ht : ((s ++ '/' :: '/' :: (H ++ Z)).takeWhile (· != '#')).takeWhile (· != '?')
      = (s ++ '/' :: '/' :: H) ++
        ((Z.takeWhile (· != '#')).takeWhile (· != '?')) := by
    rw [hu, takeWhile_append_all (fun x hx => (hA x hx).1),
        takeWhile_append_all (fun x hx => (hA x hx).2)]
  set Z2 := (Z.takeWhile (· != '#')).takeWhile (· != '?') with hZ2def
  have hZ2 : Z2 = [] ∨ ∃ W, Z2 = '/' :: W := by
    rcases hZ with rfl | ⟨z0, zs, rfl, hz0⟩
    · left; simp [hZ2def]
    · have h3 : z0 = '/' ∨ z0 = '?' ∨ z0 = '#' := by
        by_cases a1 : z0 = '/'
        · exact Or.inl a1
        by_cases a2 : z0 = '?'
        · exact Or.inr (Or.inl a2)
        by_cases a3 : z0 = '#'
        · exact Or.inr (Or.inr a3)
        exfalso
        have : isNetChar z0 = true := by
          simp [isNetChar, a1, a2, a3]
        rw [this] at hz0
        cases hz0
      rcases h3 with rfl | rfl | rfl
      · right
        refine ⟨(zs.takeWhile (· != '#')).takeWhile (· != '?'), ?_⟩
        rw [hZ2def, List.takeWhile_cons_of_pos (by decide),
            List.takeWhile_cons_of_pos (by decide)]
      · left
        rw [hZ2def, List.takeWhile_cons_of_pos (by decide),
            List.takeWhile_cons_of_neg (by decide)]
      · left
        rw [hZ2def, List.takeWhile_cons_of_neg (by decide)]
        simp
  unfold canonical_url
  rw [ht]
  rcases hZ2 with hZ2 | ⟨W, hZ2⟩
  · rw [hZ2]
    refine ⟨[], ?_⟩
    rw [List.append_nil, hrdA]
    simp
  · rcases hz3 : Z2.rdropWhile (· == '/') with _ | ⟨y, ys⟩
    · rw [rdropWhile_append_nil hz3, hrdA]
      refine ⟨[], ?_⟩
      simp
    · have hy : y = '/' := by
        have hpre : Z2.rdropWhile (· == '/') <+: Z2 := List.rdropWhile_prefix _ _
        rw [hz3, hZ2] at hpre
        obtain ⟨tl, htl⟩ := hpre
        simp only [List.cons_append] at htl
        exact (List.cons_eq_cons.mp htl).1
      refine ⟨ys ++ ['/'], ?_⟩
      rw [rdropWhile_append_ne (by rw [hz3]; simp), hz3, hy]
      simp

theorem netloc_scheme_shape {c : Char} {cs w : List Char}
    (hc : c.isAlpha = true) (hcs : cs.all isSchemeChar = true)
    (hnc : ∀ x ∈ c :: cs, (x != ':') = true) :
    netloc ((c :: cs) ++ ':' :: '/' :: '/' :: w) = w.takeWhile isNetChar := by
  have htw : ((c :: cs) ++ ':' :: '/' :: '/' :: w).takeWhile (· != ':') = c :: cs := by
    rw [takeWhile_append_all hnc, List.takeWhile_cons_of_neg (by decide)]
    simp
  have hdw : ((c :: cs) ++ ':' :: '/' :: '/' :: w).dropWhile (· != ':')
      = ':' :: '/' :: '/' :: w := by
    rw [List.dropWhile_append, if_pos, List.dropWhile_cons_of_neg (by decide)]
    rw [List.isEmpty_iff, List.dropWhile_eq_nil_iff]
    exact fun x hx => hnc x hx
  have hsch : hasScheme ((c :: cs) ++ ':' :: '/' :: '/' :: w) = true := by
    unfold hasScheme
    rw [htw, hdw]
    simp [hc, hcs]
  unfold netloc afterScheme
  rw [if_pos hsch, hdw]
  simp

theorem netloc_bare_shape {w : List Char} :
    netloc ('/' :: '/' :: w) = w.takeWhile isNetChar := by
  have hsch : hasScheme ('/' :: '/' :: w) = false := by
    unfold hasScheme
    rw [List.takeWhile_cons_of_pos (by decide)]
    rcases hdw : ('/' :: '/' :: w).dropWhile (· != ':') with _ | ⟨d, ds⟩ <;> simp
  unfold netloc afterScheme
  rw [hsch]
  simp

theorem isAlpha_facts {x : Char} (h : x.isAlpha = true) :
    (x != '#') = true ∧ (x != '?') = true := by
  refine ⟨bne_iff_ne.mpr ?_, bne_iff_ne.mpr ?_⟩ <;>
    (intro he; subst he; revert h; decide)

theorem isSchemeChar_facts {x : Char} (h : isSchemeChar x = true) :
    (x != '#') = true ∧ (x != '?') = true := by
  refine ⟨bne_iff_ne.mpr ?_, bne_iff_ne.mpr ?_⟩ <;>
    (intro he; subst he; revert h; decide)

/-- Canonicalization does not change a non-empty network location: the
host of `full.split("#")[0].split("?")[0].rstrip("/") + "/"` is the host
of `full`. -/
theorem netloc_canonical {u : List Char} (h : netloc u ≠ []) :
    netloc (canonical_url u) = netloc u := by
  rcases htas : afterScheme u with _ | ⟨a, _ | ⟨b, rest⟩⟩
  · exfalso; apply h; unfold netloc; rw [htas]
  · exfalso; apply h; unfold netloc; rw [htas]
  by_cases hab : a = '/' ∧ b = '/'
  swap
  · exfalso; apply h; unfold netloc; rw [htas]; simp [hab]
  obtain ⟨rfl, rfl⟩ := hab
  have hnl : netloc u = rest.takeWhile isNetChar := by
    unfold netloc; rw [htas]; simp
  set H := rest.takeWhile isNetChar with hHdef
  set Z := rest.dropWhile isNetChar with hZdef
  have hrest : rest = H ++ Z := (List.takeWhile_append_dropWhile _ _).symm
  have hH : ∀ x ∈ H, isNetChar x = true := fun x hx => List.mem_takeWhile_imp hx
  have hHne : H ≠ [] := by rw [hnl] at h; exact h
  have hZs : Z = [] ∨ ∃ z0 zs, Z = z0 :: zs ∧ isNetChar z0 = false := by
    rcases hZc : Z with _ | ⟨z0, zs⟩
    · exact Or.inl rfl
    · right
      refine ⟨z0, zs, rfl, ?_⟩
      have h5 := List.head?_dropWhile_not isNetChar rest
      rw [← hZdef, hZc] at h5
      simpa using h5
  by_cases hsch : hasScheme u = true
  · rcases htw : u.takeWhile (· != ':') with _ | ⟨c, cs⟩
    · exfalso
      unfold hasScheme at hsch
      rcases hdw2 : u.dropWhile (· != ':') with _ | ⟨d2, ds2⟩ <;>
        rw [htw, hdw2] at hsch <;> simp at hsch
    rcases hdw : u.dropWhile (· != ':') with _ | ⟨d, ds⟩
    · exfalso
      unfold hasScheme at hsch
      rw [htw, hdw] at hsch
      simp at hsch
    have hccs : c.isAlpha = true ∧ cs.all isSchemeChar = true := by
      unfold hasScheme at hsch
      rw [htw, hdw] at hsch
      simpa using hsch
    have hd : d = ':' := by
      have h6 := List.head?_dropWhile_not (· != ':') u
      rw [hdw] at h6
      simpa using h6
    subst hd
    have hds : ds = afterScheme u := by
      unfold afterScheme
      rw [if_pos hsch, hdw]
      rfl
    rw [htas] at hds
    have hueq : u = (c :: cs) ++ ':' :: ds := by
      conv_lhs => rw [← List.takeWhile_append_dropWhile (· != ':') u]
      rw [htw, hdw]
    have hnc : ∀ x ∈ c :: cs, (x != ':') = true := by
      intro y hy
      rw [← htw] at hy
      exact @List.mem_takeWhile_imp _ (fun z => z != ':') u y hy
    have hschars : ∀ x ∈ (c :: cs) ++ [':'], (x != '#') = true ∧ (x != '?') = true := by
      intro x hx
      rw [List.mem_append, List.mem_cons] at hx
      rcases hx with (rfl | hx) | hx
      · exact isAlpha_facts hccs.1
      · exact isSchemeChar_facts (by
          have := List.all_eq_true.mp hccs.2 x hx
          simpa using this)
      · simp only [List.mem_singleton] at hx
        subst hx
        exact ⟨by decide, by decide⟩
    have hu2 : u = ((c :: cs) ++ [':']) ++ '/' :: '/' :: (H ++ Z) := by
      rw [hueq, hds, hrest]; simp
    obtain ⟨Y, hY⟩ := canonical_shape (s := (c :: cs) ++ [':']) hschars hH hHne hZs
    conv_lhs => rw [hu2, hY]
    have hre : ((c :: cs) ++ [':']) ++ '/' :: '/' :: (H ++ '/' :: Y)
        = (c :: cs) ++ ':' :: '/' :: '/' :: (H ++ '/' :: Y) := by simp
    rw [hre, netloc_scheme_shape hccs.1 hccs.2 hnc, hnl,
        takeWhile_append_all hH, List.takeWhile_cons_of_neg (by decide)]
    simp
  · have hueq : u = '/' :: '/' :: rest := by
      rw [← htas]
      unfold afterScheme
      rw [if_neg hsch]
    have hu2 : u = ([] : List Char) ++ '/' :: '/' :: (H ++ Z) := by
      rw [hueq, hrest]; simp
    obtain ⟨Y, hY⟩ := canonical_shape (s := ([] : List Char))
      (by intro x hx; cases hx) hH hHne hZs
    conv_lhs => rw [hu2, hY]
    have hre : ([] : List Char) ++ '/' :: '/' :: (H ++ '/' :: Y)
        = '/' :: '/' :: (H ++ '/' :: Y) := by simp
    rw [hre, netloc_bare_shape, hnl,
        takeWhile_append_all hH, List.takeWhile_cons_of_neg (by decide)]
    simp

/-- `urlparse(base).scheme + "://" + netloc(base)`: the prefix kept when a
root-relative href is resolved. -/
def schemeAndHost (base : List Char) : List Char :=
  base.takeWhile (· != ':') ++ ':' :: '/' :: '/' :: netloc base

/-- The base URL up to and including the final `/` of its path (query and
fragment removed): the prefix a relative href is appended to. -/
def baseDir (base : List Char) : List Char :=
  ((base.takeWhile (· != '#')).takeWhile (· != '?')).rdropWhile (· != '/')

/-- Model of `urljoin(base, href)` (`normalise_url`, src lines 84-85) for
the href forms met here: an absolute reference with its own scheme is
returned unchanged, `//host/...` adopts the base scheme, `/path` keeps the
base authority, and a plain relative path is appended to the base
directory.  Dot-segment normalization and same-scheme relative references
are outside the model. -/
def normalise_url (base href : List Char) : List Char :=
  if hasScheme href then href
  else if ("//".toList).isPrefixOf href then base.takeWhile (· != ':') ++ ':' :: href
  else if ("/".toList).isPrefixOf href then schemeAndHost base ++ href
  else if href = [] then base
  else baseDir base ++ href

/-- Python string `<=`: lexicographic comparison by code point. -/
def lexLe : List Char → List Char → Bool
  | [], _ => true
  | _ :: _, [] => false
  | a :: as, b :: bs => if a < b then true else if a = b then lexLe as bs else false

theorem lexLe_total : ∀ x y : List Char, lexLe x y = true ∨ lexLe y x = true := by
  intro x
  induction x with
  | nil => intro y; left; rfl
  | cons a as ih =>
    intro y
    cases y with
    | nil => right; rfl
    | cons b bs =>
      rcases lt_trichotomy a b with h | h | h
      · left; simp [lexLe, h]
      · subst h
        rcases ih bs with h2 | h2
        · left; simp [lexLe, h2]
        · right; simp [lexLe, h2]
      · right; simp [lexLe, h]

theorem lexLe_trans : ∀ x y z : List Char,
    lexLe x y = true → lexLe y z = true → lexLe x z = true := by
  intro x
  induction x with
  | nil => intro y z _ _; rfl
  | cons a as ih =>
    intro y z hxy hyz
    cases y with
    | nil => simp [lexLe] at hxy
    | cons b bs =>
      cases z with
      | nil => simp [lexLe] at hyz
      | cons c cs =>
        simp only [lexLe] at hxy hyz ⊢
        by_cases hab : a < b
        · by_cases hbc : b < c
          · simp [lt_trans hab hbc]
          · by_cases hbc2 : b = c
            · subst hbc2; simp [hab]
            · simp [hbc, hbc2] at hyz
        · by_cases hab2 : a = b
          · subst hab2
            simp [hab] at hxy
            by_cases hbc : a < c
            · simp [hbc]
            · by_cases hbc2 : a = c
              · subst hbc2
                simp [hbc] at hyz ⊢
                exact ih bs cs hxy hyz
              · simp [hbc, hbc2] at hyz
          · simp [hab, hab2] at hxy

/-- The propositional form of `lexLe`: the order `sorted(...)` uses. -/
def urlLe (x y : List Char) : Prop := lexLe x y = true

instance : DecidableRel urlLe := fun x y => by unfold urlLe; infer_instance

instance : IsTotal (List Char) urlLe := ⟨lexLe_total⟩

instance : IsTrans (List Char) urlLe := ⟨fun x y z => lexLe_trans x y z⟩

/-- `extract_competition_links_from_category` (src lines 97-122): keep
each href that contains `/competition/` but not `/competition-category/`,
resolve it against the category URL, keep it only when its host matches
the category host, canonicalize, de-duplicate via set semantics and
return in sorted order.  `hrefs` is the list of `href` attributes of the
document's anchors, in document order. -/
def extract_competition_links_from_category (category_url : List Char)
    (hrefs : List (List Char)) : List (List Char) :=
  let category_host := netloc category_url
  ((hrefs.filterMap fun href =>
      if pyIn ("/competition/".toList) href = false then none
      else if pyIn ("/competition-category/".toList) href = true then none
      else
        let full := normalise_url category_url href
        if netloc full ≠ category_host then none
        else some (canonical_url full)).dedup).insertionSort urlLe

/-- What claim C6 (as amended) asserts of the link extractor's output. -/
def linkExtractorSpec (category_url : List Char) (hrefs : List (List Char)) : Prop :=
  (extract_competition_links_from_category category_url hrefs).Sorted urlLe ∧
  (extract_competition_links_from_category category_url hrefs).Nodup ∧
  ∀ u ∈ extract_competition_links_from_category category_url hrefs,
    netloc u = netloc category_url ∧
    '?' ∉ u ∧ '#' ∉ u ∧
    ∃ href ∈ hrefs,
      pyIn ("/competition/".toList) href = true ∧
      pyIn ("/competition-category/".toList) href = false ∧
      u = canonical_url (normalise_url category_url href)

/-- C6 (amended): for every listing URL with a host and every href list,
the link extractor's result is duplicate-free and sorted
lexicographically; every returned URL's host equals the listing URL's
host; no returned URL contains a `?` or `#`; and each returned URL is the
canonicalization (strip query and fragment, strip trailing slashes,
append exactly one slash) of an href that contains the detail marker and
not the category marker, resolved against the listing URL.  Contrary to
the original claim, a returned URL may itself contain the
category-marker substring: the marker filter runs on the raw href, and a
relative href resolved against a category listing URL inherits the
marker from the base (see the counterexample). -/
theorem c6_link_extractor_amended (category_url : List Char)
    (hrefs : List (List Char)) (hhost : netloc category_url ≠ []) :
    linkExtractorSpec category_url hrefs := by
  unfold linkExtractorSpec
  refine ⟨List.sorted_insertionSort urlLe _, ?_, ?_⟩
  · exact (List.perm_insertionSort urlLe _).nodup_iff.mpr (List.nodup_dedup _)
  · intro u hu
    unfold extract_competition_links_from_category at hu
    rw [List.mem_insertionSort, List.mem_dedup, List.mem_filterMap] at hu
    obtain ⟨href, hhref, hf⟩ := hu
    by_cases h1 : pyIn ("/competition/".toList) href = false
    · rw [if_pos h1] at hf; cases hf
    rw [if_neg h1] at hf
    by_cases h2 : pyIn ("/competition-category/".toList) href = true
    · rw [if_pos h2] at hf; cases hf
    rw [if_neg h2] at hf
    by_cases h3 : netloc (normalise_url category_url href) ≠ netloc category_url
    · rw [if_pos h3] at hf; cases hf
    rw [if_neg h3] at hf
    have hfull : netloc (normalise_url category_url href) = netloc category_url := by
      by_contra hc; exact h3 hc
    obtain rfl : canonical_url (normalise_url category_url href) = u :=
      Option.some_injective _ hf
    refine ⟨?_, ?_, ?_, href, hhref, ?_, ?_, rfl⟩
    · rw [netloc_canonical (by rw [hfull]; exact hhost), hfull]
    · intro hq
      unfold canonical_url at hq
      rw [List.mem_append] at hq
      rcases hq with hq | hq
      · have hq2 := List.IsPrefix.mem hq ( List.rdropWhile_prefix _ _)
        have hq3 := @List.mem_takeWhile_imp _ (fun z => z != '?') _ _ hq2
        simp at hq3
      · simp at hq
    · intro hq
      unfold canonical_url at hq
      rw [List.mem_append] at hq
      rcases hq with hq | hq
      · have hq2 := List.IsPrefix.mem hq ( List.rdropWhile_prefix _ _)
        have hq3 := List.Sublist.mem hq2 (List.takeWhile_sublist _)
        have hq4 := @List.mem_takeWhile_imp _ (fun z => z != '#') _ _ hq3
        simp at hq4
      · simp at hq
    · rw [Bool.not_eq_false] at h1; exact h1
    · rw [Bool.not_eq_true] at h2; exact h2



/-! ### Example records used by witnesses -/

/-- A record with price £1 and a pool of 4 tickets. -/
def exComp : Competition :=
  { category := [], url := [], ticket_price_gbp := some 1, tickets_available := some 4 }

/-- A record whose price is present but zero. -/
def exZeroPrice : Competition :=
  { category := [], url := [], ticket_price_gbp := some 0, tickets_available := some 5 }

/-! ### Claims -/

/-- C1 (amended): when fallback is enabled, the static record fails the
completeness predicate, and the alternate (dynamic-rendering) extraction
raises, the run continues — the per-URL loop still yields one record per
URL — but the record kept is a fresh record holding only category and
url (the `except` branch of `main`), not the original static record. -/
theorem c1_fallback_failure_keeps_blank_record
    (category url : List Char) (m : PageMatches) (e : Unit) (flag : Bool)
    (items : List (List Char × Except Unit PageMatches × Except Unit PageMatches))
    (hic : is_comp_complete (extract_comp_details_static category url m) = false) :
    fetch_and_extract true category url (.ok m) (.error e) = failure_record category url ∧
    (process_detail_urls flag category items).length = items.length := by
  constructor
  · simp [fetch_and_extract, hic]
  · simp [process_detail_urls]

/-- C1 counterexample: a static record carrying only a title is
incomplete; when the fallback then fails, the kept record is the blank
category-and-url record — not that static record, contradicting the
claim that the static record is kept. -/
theorem c1_counterexample :
    is_comp_complete
      (extract_comp_details_static ['c'] ['u'] { m_title := some ['T'] }) = false ∧
    fetch_and_extract true ['c'] ['u'] (.ok { m_title := some ['T'] }) (.error ())
      ≠ extract_comp_details_static ['c'] ['u'] { m_title := some ['T'] } ∧
    fetch_and_extract true ['c'] ['u'] (.ok { m_title := some ['T'] }) (.error ())
      = failure_record ['c'] ['u'] := by
  refine ⟨rfl, ?_, rfl⟩
  decide

/-- C1 witness: the amended claim at a concrete incomplete page. -/
theorem c1_witness :
    fetch_and_extract true ['c'] ['u'] (.ok ({} : PageMatches)) (.error ())
      = failure_record ['c'] ['u'] ∧
    (process_detail_urls false ['c']
      [(['u'], Except.ok ({} : PageMatches), Except.ok ({} : PageMatches))]).length = 1 :=
  c1_fallback_failure_keeps_blank_record ['c'] ['u'] {} () false
    [(['u'], Except.ok {}, Except.ok {})] rfl

/-- C2 (amended): the tabular (CSV) and structured (JSON) renderers share
one row shape — the same thirteen augmented fields in `OUTPUT_FIELDS`
order (category, url, title, ticket_price, draw_datetime,
sales_end_datetime, tickets_available, tickets_sold, cash_alternative,
odds_per_ticket, win_prob_10, win_prob_20, company_revenue) — but the
interactive report renders a different row: cells for category,
title-with-url, ticket_price, tickets_available, tickets_sold,
win_prob_10, win_prob_20, company_revenue and sales_end, omitting
draw_datetime, cash_alternative and odds_per_ticket. -/
theorem c2_renderer_rows (c : Competition) :
    (write_json_row c).map Prod.fst = OUTPUT_FIELDS ∧
    write_csv_row c = (write_json_row c).map Prod.snd ∧
    (row_html c).map Prod.fst = ROW_HTML_FIELDS ∧
    ROW_HTML_FIELDS ≠ OUTPUT_FIELDS :=
  ⟨rfl, rfl, rfl, by decide⟩

/-- C2 counterexample: at the blank record, the interactive report's row
fields differ from the field list the tabular and structured renderers
share, so the three renderers do not emit one common field set. -/
theorem c2_counterexample :
    (row_html (failure_record [] [])).map Prod.fst ≠
      (write_json_row (failure_record [] [])).map Prod.fst := by
  decide

/-- C3 (amended): `company_revenue` is unknown exactly when
`ticket_price_gbp` or `tickets_available` is missing; whenever both are
present it returns their product — also when an input is zero or
negative, contrary to the claim's "missing or non-positive". -/
theorem c3_company_revenue (comp : Competition) :
    (company_revenue_gbp comp = none ↔
      comp.ticket_price_gbp = none ∨ comp.tickets_available = none) ∧
    ∀ p N, comp.ticket_price_gbp = some p → comp.tickets_available = some N →
      company_revenue_gbp comp = some (p * (N : ℚ)) := by
  rcases hp : comp.ticket_price_gbp with _ | p <;>
    rcases ha : comp.tickets_available with _ | N <;>
    simp [company_revenue_gbp, hp, ha]

/-- C3 counterexample: with a present but non-positive price (zero) and a
positive pool, the code returns revenue `0`, not unknown as the claim
requires for non-positive inputs. -/
theorem c3_counterexample :
    exZeroPrice.ticket_price_gbp = some 0 ∧
    company_revenue_gbp exZeroPrice ≠ none ∧
    company_revenue_gbp exZeroPrice = some 0 := by
  refine ⟨rfl, ?_, ?_⟩
  · simp [company_revenue_gbp, exZeroPrice]
  · norm_num [company_revenue_gbp, exZeroPrice]

/-- C3 witness: the amended claim evaluated at price £2 and pool 3. -/
theorem c3_witness : company_revenue_gbp
    { category := [], url := [], ticket_price_gbp := some 2, tickets_available := some 3 }
    = some 6 := by
  rw [(c3_company_revenue _).2 2 3 rfl rfl]
  norm_num

/-- C4 (confirmed): `win_probability_for_spend` behaves exactly as the
spec words it — requires positive price and pool (else unknown, also
when missing), takes `n = floor(spend / price)`, returns the defined
value `0.0` when `n ≤ 0`, else `min(n, pool) / pool`.  The code truncates
`spend/price` toward zero where the spec says floor, but the two agree:
they differ only on negative quotients, where both land in the `0.0`
branch. -/
theorem c4_win_probability_matches_spec (comp : Competition) (spend : ℚ) :
    win_probability_for_spend comp spend = win_probability_spec comp spend := by
  unfold win_probability_for_spend win_probability_spec
  rcases hp : comp.ticket_price_gbp with _ | p
  · rfl
  rcases ha : comp.tickets_available with _ | N
  · rfl
  simp only []
  by_cases hpos : 0 < p ∧ 0 < N
  · have hne : p ≠ 0 ∧ N ≠ 0 := ⟨ne_of_gt hpos.1, ne_of_gt hpos.2⟩
    have hng : ¬(p ≤ 0 ∨ N ≤ 0) := by
      push_neg
      exact hpos
    rw [if_neg (not_not_intro hne), if_neg hng, if_pos hpos]
    by_cases hq : spend / p < 0
    · simp only [pyInt, if_pos hq]
      have h1 : ⌈spend / p⌉ ≤ 0 := Int.ceil_le.mpr (by exact_mod_cast hq.le)
      have h2 : ⌊spend / p⌋ ≤ 0 := Int.floor_nonpos hq.le
      rw [if_pos h1, if_pos h2]
    · simp only [pyInt, if_neg hq]
  · rw [if_neg hpos]
    by_cases hz : p ≠ 0 ∧ N ≠ 0
    · rw [if_neg (not_not_intro hz)]
      have hor : p ≤ 0 ∨ N ≤ 0 := by
        rcases not_and_or.mp hpos with h | h
        · exact Or.inl (le_of_not_lt h)
        · exact Or.inr (le_of_not_lt h)
      rw [if_pos hor]
    · rw [if_pos hz]

instance : IsTotal (ℚ × WithTop ℚ) pairLe :=
  ⟨fun x y => by
    rcases lt_trichotomy x.1 y.1 with h | h | h
    · exact Or.inl (Or.inl h)
    · rcases le_total x.2 y.2 with h2 | h2
      · exact Or.inl (Or.inr ⟨h, h2⟩)
      · exact Or.inr (Or.inr ⟨h.symm, h2⟩)
    · exact Or.inr (Or.inl h)⟩

instance : IsTrans (ℚ × WithTop ℚ) pairLe :=
  ⟨fun x y z hxy hyz => by
    rcases hxy with h1 | ⟨h1, h1b⟩ <;> rcases hyz with h2 | ⟨h2, h2b⟩
    · exact Or.inl (lt_trans h1 h2)
    · exact Or.inl (h2 ▸ h1)
    · exact Or.inl (by rw [h1]; exact h2)
    · exact Or.inr ⟨h1.trans h2, le_trans h1b h2b⟩⟩

instance : IsTotal Competition reportLe :=
  ⟨fun a b => IsTotal.total (sort_key a) (sort_key b)⟩

instance : IsTrans Competition reportLe :=
  ⟨fun a b c h1 h2 => IsTrans.trans (sort_key a) (sort_key b) (sort_key c) h1 h2⟩

/-- C5 (confirmed): the interactive report orders its rows by the two-key
ranking — each rendered list is a permutation of the input sorted by
`reportLe`, whose key is `(-(win probability at spend 10, absent as 0.0),
revenue with absent as +infinity)` — and on the claim's example key
values (win%@10 of 5%, 20%, 20%; revenues 100, 50, 200) the ranking
orders them [20%/50, 20%/200, 5%/100]. -/
theorem c5_report_sort :
    (∀ comps : List Competition,
      (write_html_sorted comps).Sorted reportLe ∧
      (write_html_sorted comps).Perm comps) ∧
    List.insertionSort pairLe
      [((-(1/20) : ℚ), ((100 : ℚ) : WithTop ℚ)),
       ((-(1/5) : ℚ), ((50 : ℚ) : WithTop ℚ)),
       ((-(1/5) : ℚ), ((200 : ℚ) : WithTop ℚ))]
      = [((-(1/5) : ℚ), ((50 : ℚ) : WithTop ℚ)),
         ((-(1/5) : ℚ), ((200 : ℚ) : WithTop ℚ)),
         ((-(1/20) : ℚ), ((100 : ℚ) : WithTop ℚ))] := by
  constructor
  · intro comps
    exact ⟨List.sorted_insertionSort reportLe comps,
           List.perm_insertionSort reportLe comps⟩
  · norm_num [List.insertionSort, List.orderedInsert, pairLe]

/-- C7 (confirmed): for a fixed record with positive price and pool,
`win_probability_for_spend` is monotone non-decreasing over positive
spends, and whenever it returns a value that value is at most 1. -/
theorem c7_win_probability_monotone_bounded :
    (∀ (comp : Competition) (p : ℚ) (N : ℤ) (s1 s2 w1 w2 : ℚ),
      comp.ticket_price_gbp = some p → comp.tickets_available = some N →
      0 < p → 0 < N → 0 < s1 → s1 ≤ s2 →
      win_probability_for_spend comp s1 = some w1 →
      win_probability_for_spend comp s2 = some w2 → w1 ≤ w2) ∧
    (∀ (comp : Competition) (spend w : ℚ),
      win_probability_for_spend comp spend = some w → w ≤ 1) := by
  constructor
  · intro comp p N s1 s2 w1 w2 hp ha hp0 hN0 hs1 hs12 hw1 hw2
    unfold win_probability_for_spend at hw1 hw2
    rw [hp, ha] at hw1 hw2
    simp only [] at hw1 hw2
    have hne : p ≠ 0 ∧ N ≠ 0 := ⟨ne_of_gt hp0, ne_of_gt hN0⟩
    have hng : ¬(p ≤ 0 ∨ N ≤ 0) := by
      push_neg
      exact ⟨hp0, hN0⟩
    rw [if_neg (not_not_intro hne), if_neg hng] at hw1 hw2
    have hq1 : ¬ s1 / p < 0 := not_lt.mpr (div_nonneg hs1.le hp0.le)
    have hq2 : ¬ s2 / p < 0 := not_lt.mpr (div_nonneg ((hs1.trans_le hs12).le) hp0.le)
    simp only [pyInt, if_neg hq1] at hw1
    simp only [pyInt, if_neg hq2] at hw2
    have hmono : ⌊s1 / p⌋ ≤ ⌊s2 / p⌋ :=
      Int.floor_le_floor ((div_le_div_iff_of_pos_right hp0).mpr hs12)
    by_cases h1 : ⌊s1 / p⌋ ≤ 0
    · rw [if_pos h1] at hw1
      have hw1e : (0 : ℚ) = w1 := by injection hw1
      rw [← hw1e]
      by_cases h2 : ⌊s2 / p⌋ ≤ 0
      · rw [if_pos h2] at hw2
        have hw2e : (0 : ℚ) = w2 := by injection hw2
        rw [← hw2e]
      · rw [if_neg h2] at hw2
        have hw2e : ((min ⌊s2 / p⌋ N : ℤ) : ℚ) / (N : ℚ) = w2 := by injection hw2
        rw [← hw2e]
        apply div_nonneg _ (by exact_mod_cast hN0.le)
        have : (0 : ℤ) ≤ min ⌊s2 / p⌋ N :=
          le_min (le_of_not_le h2) hN0.le
        exact_mod_cast this
    · rw [if_neg h1] at hw1
      have h2 : ¬ ⌊s2 / p⌋ ≤ 0 := fun hc => h1 (le_trans hmono hc)
      rw [if_neg h2] at hw2
      have hw1e : ((min ⌊s1 / p⌋ N : ℤ) : ℚ) / (N : ℚ) = w1 := by injection hw1
      have hw2e : ((min ⌊s2 / p⌋ N : ℤ) : ℚ) / (N : ℚ) = w2 := by injection hw2
      rw [← hw1e, ← hw2e]
      have hNQ : (0 : ℚ) < (N : ℚ) := by exact_mod_cast hN0
      rw [div_le_div_iff_of_pos_right hNQ]
      have hminle : min ⌊s1 / p⌋ N ≤ min ⌊s2 / p⌋ N := min_le_min hmono le_rfl
      exact_mod_cast hminle
  · intro comp spend w hw
    unfold win_probability_for_spend at hw
    rcases hp : comp.ticket_price_gbp with _ | p <;> rw [hp] at hw
    · cases hw
    rcases ha : comp.tickets_available with _ | N <;> rw [ha] at hw
    · cases hw
    simp only [] at hw
    by_cases hz : ¬(p ≠ 0 ∧ N ≠ 0)
    · rw [if_pos hz] at hw
      cases hw
    rw [if_neg hz] at hw
    by_cases hng : p ≤ 0 ∨ N ≤ 0
    · rw [if_pos hng] at hw
      cases hw
    rw [if_neg hng] at hw
    push_neg at hng
    by_cases h1 : pyInt (spend / p) ≤ 0
    · rw [if_pos h1] at hw
      have hwe : (0 : ℚ) = w := by injection hw
      rw [← hwe]
      norm_num
    · rw [if_neg h1] at hw
      have hwe : ((min (pyInt (spend / p)) N : ℤ) : ℚ) / (N : ℚ) = w := by injection hw
      rw [← hwe]
      rw [div_le_one (by exact_mod_cast hng.2)]
      have : min (pyInt (spend / p)) N ≤ N := min_le_right _ _
      exact_mod_cast this

/-- C6 counterexample: on the category listing
`https://h/competition-category/cash/`, the relative href
`x/competition/a` passes both marker checks, yet the returned canonical
URL contains the category-marker substring `/competition-category/`. -/
theorem c6_counterexample :
    extract_competition_links_from_category
      "https://h/competition-category/cash/".toList ["x/competition/a".toList]
      = ["https://h/competition-category/cash/x/competition/a/".toList] ∧
    pyIn ("/competition-category/".toList)
      "https://h/competition-category/cash/x/competition/a/".toList = true := by
  exact ⟨by decide, by decide⟩

/-- C6 witness: the amended claim at a concrete listing page whose hrefs
exercise the relative, the query-and-fragment and the marker cases. -/
theorem c6_witness :
    linkExtractorSpec "https://h/competition-category/cash/".toList
      ["x/competition/a".toList,
       "https://h/competition/b/?q=1#f".toList,
       "https://other/competition/c/".toList,
       "/competition-category/more/competition/d/".toList] :=
  c6_link_extractor_amended _ _ (by decide)

/-- C7 witness: the monotonicity bound at price £1, pool 4, spends £1
and £2, and the upper bound at spend £2. -/
theorem c7_witness : ((1 : ℚ)/4 ≤ 1/2) ∧ ((1 : ℚ)/2 ≤ 1) := by
  have e1 : win_probability_for_spend exComp 1 = some (1/4) := by
    norm_num [win_probability_for_spend, exComp, pyInt]
  have e2 : win_probability_for_spend exComp 2 = some (1/2) := by
    norm_num [win_probability_for_spend, exComp, pyInt]
  exact ⟨c7_win_probability_monotone_bounded.1 exComp 1 4 1 2 (1/4) (1/2)
           rfl rfl (by norm_num) (by norm_num) (by norm_num) (by norm_num) e1 e2,
         c7_win_probability_monotone_bounded.2 exComp 2 (1/2) e2⟩

/-- C8 (confirmed): when rule 3 (`<int> tickets available`) matched and
set `tickets_available`, rule 4's pool capture never overwrites it: the
extracted record's `tickets_available` is rule 3's value whatever rule 4
captured. -/
theorem c8_rule3_never_overwritten
    (category url : List Char) (m : PageMatches) (a : ℕ)
    (ha : m.m_avail = some a) :
    (extract_comp_details_static category url m).tickets_available = some (a : ℤ) := by
  unfold extract_comp_details_static
  rw [ha]
  rcases m.m_sold with _ | ⟨s1, s2⟩ <;>
    rcases m.m_title with _ | t <;> rcases m.m_price with _ | p <;>
    rcases m.m_cash with _ | cc <;> rcases m.m_draw with _ | d <;>
    rcases m.m_end with _ | e <;> simp

/-- C8 witness: rule 3 captured 3 while rule 4's pool capture is 999; the
record keeps 3. -/
theorem c8_witness :
    (extract_comp_details_static [] []
      { m_avail := some 3, m_sold := some (1, 999) }).tickets_available = some 3 :=
  c8_rule3_never_overwritten [] [] { m_avail := some 3, m_sold := some (1, 999) } 3 rfl

/-- C9 (confirmed): the three Metrics Engine functions are total Lean
functions of the record (they never raise); when `tickets_available` is
unset all three return unknown, and when `ticket_price_gbp` is unset the
two functions that read it return unknown. -/
theorem c9_metrics_total (comp : Competition) (spend : ℚ) :
    (comp.tickets_available = none →
      odds_per_ticket comp = none ∧
      win_probability_for_spend comp spend = none ∧
      company_revenue_gbp comp = none) ∧
    (comp.ticket_price_gbp = none →
      win_probability_for_spend comp spend = none ∧
      company_revenue_gbp comp = none) := by
  refine ⟨fun h => ?_, fun h => ?_⟩
  · rcases hp : comp.ticket_price_gbp with _ | p <;>
      simp [odds_per_ticket, win_probability_for_spend, company_revenue_gbp, h, hp]
  · rcases ha : comp.tickets_available with _ | N <;>
      simp [win_probability_for_spend, company_revenue_gbp, h, ha]

/-- C9 witness: all three metrics are unknown on the blank record. -/
theorem c9_witness :
    odds_per_ticket (failure_record [] []) = none ∧
    win_probability_for_spend (failure_record [] []) 10 = none ∧
    company_revenue_gbp (failure_record [] []) = none :=
  (c9_metrics_total (failure_record [] []) 10).1 rfl

/-- C10 (confirmed): both extractor variants only set `tickets_sold`
together with `tickets_available` (rule 4 fallback-fills the pool when
rule 3 left it unset), so a sold-only record is never produced and a
complete extracted record always has `tickets_available` set. -/
theorem c10_sold_implies_available (category url : List Char) (m : PageMatches) :
    ((extract_comp_details_static category url m).tickets_sold ≠ none →
      (extract_comp_details_static category url m).tickets_available ≠ none) ∧
    ((extract_comp_details_playwright category url m).tickets_sold ≠ none →
      (extract_comp_details_playwright category url m).tickets_available ≠ none) ∧
    (is_comp_complete (extract_comp_details_static category url m) = true →
      (extract_comp_details_static category url m).tickets_available ≠ none) := by
  unfold extract_comp_details_static extract_comp_details_playwright is_comp_complete
  rcases m.m_sold with _ | ⟨s1, s2⟩ <;>
    rcases m.m_title with _ | t <;> rcases m.m_price with _ | p <;>
    rcases m.m_avail with _ | a <;>
    rcases m.m_cash with _ | cc <;> rcases m.m_draw with _ | d <;>
    rcases m.m_end with _ | e <;> simp

/-- C10 witness: a page matching only rule 4 yields a record whose pool
is set. -/
theorem c10_witness :
    (extract_comp_details_static [] []
      { m_sold := some (5, 100) }).tickets_available ≠ none :=
  (c10_sold_implies_available [] [] { m_sold := some (5, 100) }).1 (by decide)

end ClickComps
